import Mathlib

/-!
# hn-poller: the polling cycle and the ingest consumer of `main.go`

A shallow embedding of `HNPoller` (main.go:21-129) and the properties of its
de-duplication, truncation, dispatch and store-write steps.

Conventions of the embedding.

* Go `int` values are `Int`.
* A Go slice of `int` is a `Slice`: the backing array from the slice's first
  element to the array's end (so its length is the capacity) and the length.
* `map[int]*hnItem` is a finite map `Finmap` from `Int` to `hnItem`.  Every
  pointer stored in the map comes from a fresh `var resp hnItem` that is never
  written again after the send, so the pointer is identified with its record.
* A run-time panic is not recovered anywhere in `main.go`; it ends the
  process.  Functions that can panic return `Exec`.
* The mutex carries no data and is not represented.  The buffered channel
  `itemChan` is represented by the sequence of records the consumer receives
  from it, in the order it receives them.
* Logging (`log`, `fmt.Print*`) is not represented.
-/

namespace HN

/-! ## Data model -/

/-- The record `hnItem` (main.go:21-31). -/
structure hnItem where
  By : String
  Descendants : Int
  Id : Int
  Kids : List Int
  Time : Int
  Score : Int
  Title : String
  Type_ : String
  Url : String
  deriving DecidableEq, Repr

/-- The zero value of `hnItem`, what `var resp hnItem` holds (main.go:108). -/
def hnItem.zero : hnItem := ⟨"", 0, 0, [], 0, 0, "", "", ""⟩

/-- The field `items` of the poller: `map[int]*hnItem` (main.go:35). -/
abbrev Store := Finmap (fun _ : Int => hnItem)

/-- The constant `hnPollInterval` (main.go:18). -/
def hnPollInterval : Int := 5

/-- The struct `HNPoller` (main.go:33-44), without the mutex and the channel. -/
structure HNPoller where
  items : Store
  pollInterval : Int
  testLimit : Int

/-- The constructor `NewHNPoller` (main.go:46-56). -/
def NewHNPoller : HNPoller :=
  ⟨∅, hnPollInterval, 20⟩

/-- The method `Items` (main.go:69-74): the map itself. -/
def HNPoller.Items (p : HNPoller) : Store := p.items

/-! ## Go slices and run-time panics -/

/-- Result of running code that may panic. -/
inductive Exec (α : Type) where
  | panic : Exec α
  | ok : α → Exec α

/-- A Go `[]int`: `backing` is the backing array from the slice's first element
on, `len` the slice's length; the capacity is `backing.length`. -/
structure Slice where
  backing : List Int
  len : Nat
  le : len ≤ backing.length

/-- The capacity `cap(s)`. -/
def Slice.cap (s : Slice) : Nat := s.backing.length

/-- The elements `s[0], ..., s[len(s)-1]`, what `range s` visits. -/
def Slice.elems (s : Slice) : List Int := s.backing.take s.len

/-- The nil slice (`var newIds []int`): length and capacity 0. -/
def Slice.nil : Slice := ⟨[], 0, Nat.le_refl 0⟩

/-- The slice expression `s[:n]`: in range when `0 ≤ n ≤ cap(s)`, otherwise a
run-time panic (`none`). -/
def Slice.sliceTo (s : Slice) (n : Int) : Option Slice :=
  if h : 0 ≤ n ∧ n.toNat ≤ s.backing.length then some ⟨s.backing, n.toNat, h.2⟩ else none

/-- The slice expression `s[i:]`: in range when `i ≤ len(s)`, otherwise a
run-time panic (`none`). -/
def Slice.sliceFrom (s : Slice) (i : Nat) : Option Slice :=
  if i ≤ s.len then
    some ⟨s.backing.drop i, s.len - i, by
      have := s.le
      simp only [List.length_drop]
      omega⟩
  else none

/-! ## The listing response and its decoding -/

/-- The body `doRequest(hackernewsURL)` hands to `fetch` (main.go:79), by what
it holds.  The error of `doRequest` is dropped, so a failed request leaves the
empty body. -/
inductive Body where
  | empty
  | malformed
  | null
  | array (ids : List Int)

/-- The call `json.Unmarshal(body, &ids)` with `var ids []int` (main.go:81-82):
`none` for a non-nil error.  JSON `null` leaves `ids` nil, an empty array sets
it to a slice of length and capacity 0, and an array of `n ≥ 1` integers to a
slice of length `n` whose capacity is `n + spare n`, the unused part zeroed.
The growth policy `spare` belongs to the library and is a parameter. -/
def jsonUnmarshal (spare : Nat → Nat) : Body → Option Slice
  | .empty => none
  | .malformed => none
  | .null => some Slice.nil
  | .array [] => some Slice.nil
  | .array (x :: xs) =>
    some ⟨(x :: xs) ++ List.replicate (spare (xs.length + 1)) 0, xs.length + 1, by simp⟩

/-! ## The polling cycle -/

/-- What one call of `fetch` leaves behind when it returns: the returned error
(`none` is `nil`), the goroutines it started, each with its arguments
`(instance, id)`, and the poller. -/
structure FetchResult where
  err : Option String
  spawned : List (Nat × Int)
  poller : HNPoller

/-- The identifiers of the started goroutines, in the order they were started. -/
def FetchResult.dispatched (r : FetchResult) : List Int := r.spawned.map Prod.snd

/-- The test `_, ok := p.items[id]` of main.go:95: `true` when `id` has an
entry in the map. -/
def seen (items : Store) (id : Int) : Bool := (items.lookup id).isSome

/-- The loop of main.go:94-99 from index `i` on, `rest` being `ids[i:]` as
`range` visits it: the first identifier without an entry in `items` sets
`newIds = ids[i:]` and leaves the loop. -/
def HNPoller.scan (items : Store) (ids : Slice) : List Int → Nat → Exec Slice
  | [], _ => .ok Slice.nil
  | id :: rest, i =>
    if seen items id then HNPoller.scan items ids rest (i + 1)
    else
      match ids.sliceFrom i with
      | none => .panic
      | some s => .ok s

/-- The part of `fetch` after the truncation (main.go:90-118): look for the
first unseen identifier, start one goroutine per element of `newIds`, return
nil. -/
def HNPoller.dedupDispatch (p : HNPoller) (ids : Slice) : Exec FetchResult :=
  match HNPoller.scan p.items ids ids.elems 0 with
  | .panic => .panic
  | .ok newIds => .ok ⟨none, newIds.elems.enum, p⟩

/-- The method `fetch` (main.go:76-119) on the listing body `body`. -/
def HNPoller.fetch (spare : Nat → Nat) (p : HNPoller) (body : Body) : Exec FetchResult :=
  match jsonUnmarshal spare body with
  | none => .ok ⟨some "hnpoller: error unmarshalling json", [], p⟩
  | some ids =>
    if p.testLimit > 0 then
      match ids.sliceTo p.testLimit with
      | none => .panic
      | some ids => p.dedupDispatch ids
    else p.dedupDispatch ids

/-- One iteration of the loop of `poll` (main.go:59-66): the error of `fetch`
is printed and dropped; a panic of `fetch` is not recovered. -/
def HNPoller.pollIteration (spare : Nat → Nat) (p : HNPoller) (body : Body) : Exec HNPoller :=
  match p.fetch spare body with
  | .panic => .panic
  | .ok r => .ok r.poller

/-! ## The fetch goroutines and the ingest consumer -/

/-- What the item-detail endpoint gives one goroutine (main.go:106-111):
the request failed (`doRequest` returned a nil body), or the body did not
decode without error and `resp` holds `kept`, or it decoded to `item`. -/
inductive Reply where
  | requestFailed
  | undecodable (kept : hnItem)
  | object (item : hnItem)

/-- The value of `resp` after `json.Unmarshal(itemResp, &resp)` (main.go:108-111). -/
def Reply.resp : Reply → hnItem
  | .requestFailed => hnItem.zero
  | .undecodable kept => kept
  | .object item => item

/-- The goroutine body (main.go:105-115): the records it sends on `itemChan`. -/
def goroutine (net : Int → Reply) (_instance : Nat) (id : Int) : List hnItem :=
  [(net id).resp]

/-- The records sent on `itemChan` by the goroutines of `spawned`, goroutine
by goroutine. -/
def sent (net : Int → Reply) (spawned : List (Nat × Int)) : List hnItem :=
  spawned.flatMap (fun a => goroutine net a.1 a.2)

/-- One iteration of `itemListener` (main.go:123-127) that received `item`:
`p.items[item.Id] = item`. -/
def HNPoller.write (p : HNPoller) (item : hnItem) : HNPoller :=
  { p with items := p.items.insert item.Id item }

/-- The loop of `itemListener` (main.go:121-129) over the records it receives,
in the order it receives them. -/
def HNPoller.itemListener (p : HNPoller) : List hnItem → HNPoller
  | [] => p
  | item :: rest => HNPoller.itemListener (p.write item) rest

/-! ## The de-duplication the specification compares with -/

/-- The order-preserving set difference of a listing minus the keys of the
store: every listed identifier without an entry, in listing order. -/
def setDifference (listing : List Int) (items : Store) : List Int :=
  listing.filter (fun id => !seen items id)

/-- The listing `[1, ..., n]`. -/
def listingUpTo (n : Nat) : List Int := (List.range' 1 n).map Int.ofNat

/-- A record as the item-detail endpoint of the end-to-end scenario returns it
for identifier `n`: `id` is `n` and `score` is `n * 10`. -/
def scenarioItem (n : Int) : hnItem :=
  ⟨"", 0, n, [], 0, n * 10, "", "", ""⟩

end HN

namespace HN

/-! ## Slices -/

theorem Slice.length_elems (s : Slice) : s.elems.length = s.len := by
  simp [Slice.elems, s.le]

theorem Slice.sliceFrom_elems (s : Slice) (pre rest : List Int)
    (h : s.elems = pre ++ rest) :
    ∃ t, s.sliceFrom pre.length = some t ∧ t.elems = rest := by
  have hlen : pre.length ≤ s.len := by
    have := congrArg List.length h
    rw [Slice.length_elems] at this
    simp at this
    omega
  refine ⟨_, if_pos hlen, ?_⟩
  show (s.backing.drop pre.length).take (s.len - pre.length) = rest
  rw [← List.drop_take]
  show s.elems.drop pre.length = rest
  rw [h]
  simp

/-- Truncating the decoded array `l` to `n ≤ len` keeps its first `n` elements. -/
theorem sliceTo_unmarshal (spare : Nat → Nat) (l : List Int) (n : Int)
    (h0 : 0 < n) (hn : n ≤ l.length) :
    ∃ ids t, jsonUnmarshal spare (.array l) = some ids ∧ ids.sliceTo n = some t ∧
      t.elems = l.take n.toNat := by
  have hnat : n.toNat ≤ l.length := by omega
  cases l with
  | nil => simp at hn; omega
  | cons x xs =>
    have hcap : 0 ≤ n ∧ n.toNat ≤
        ((x :: xs) ++ List.replicate (spare (xs.length + 1)) 0).length := by
      constructor
      · omega
      · simp only [List.length_append, List.length_cons] at hnat ⊢
        omega
    refine ⟨_, _, rfl, dif_pos hcap, ?_⟩
    show ((x :: xs) ++ List.replicate (spare (xs.length + 1)) 0).take n.toNat = _
    rw [List.take_append_of_le_length hnat]

/-- Without truncation the decoded array `l` is visited as it is. -/
theorem unmarshal_elems (spare : Nat → Nat) (l : List Int) :
    ∃ ids, jsonUnmarshal spare (.array l) = some ids ∧ ids.elems = l := by
  cases l with
  | nil => exact ⟨_, rfl, rfl⟩
  | cons x xs =>
    refine ⟨_, rfl, ?_⟩
    show ((x :: xs) ++ List.replicate (spare (xs.length + 1)) 0).take (xs.length + 1) = _
    rw [List.take_append_of_le_length (by simp)]
    simp

/-! ## The de-duplication loop -/

theorem scan_spec (items : Store) (ids : Slice) :
    ∀ (rest pre : List Int), ids.elems = pre ++ rest →
      ∃ s, HNPoller.scan items ids rest pre.length = .ok s ∧
        s.elems = rest.dropWhile (seen items) := by
  intro rest
  induction rest with
  | nil => intro pre _; exact ⟨Slice.nil, rfl, rfl⟩
  | cons id rest ih =>
    intro pre h
    by_cases hs : seen items id = true
    · have h2 : ids.elems = (pre ++ [id]) ++ rest := by simp [h]
      obtain ⟨s, hs1, hs2⟩ := ih (pre ++ [id]) h2
      refine ⟨s, ?_, ?_⟩
      · simp only [HNPoller.scan, hs, if_true]
        simpa using hs1
      · simp [List.dropWhile, hs, hs2]
    · obtain ⟨t, ht1, ht2⟩ := Slice.sliceFrom_elems ids pre (id :: rest) h
      refine ⟨t, ?_, ?_⟩
      · simp only [HNPoller.scan, hs, ht1]
        simp
      · simp [List.dropWhile, hs, ht2]

/-- The part of `fetch` after the truncation always returns nil, leaves the
poller as it was, and starts the goroutines of the listing from its first
unseen identifier on. -/
theorem dedupDispatch_eq (p : HNPoller) (ids : Slice) :
    p.dedupDispatch ids = .ok ⟨none, (ids.elems.dropWhile (seen p.items)).enum, p⟩ := by
  obtain ⟨s, h1, h2⟩ := scan_spec p.items ids ids.elems [] rfl
  simp only [List.length_nil] at h1
  simp [HNPoller.dedupDispatch, h1, h2]

theorem dispatched_enum (l : List Int) (p : HNPoller) :
    (FetchResult.mk none l.enum p).dispatched = l := by
  simp [FetchResult.dispatched, List.enum_map_snd]

/-- The listing splits into a prefix of seen identifiers and the part from the
first unseen identifier on. -/
theorem dropWhile_split (items : Store) (l : List Int) :
    l = l.takeWhile (seen items) ++ l.dropWhile (seen items) ∧
      (∀ id ∈ l.takeWhile (seen items), seen items id = true) ∧
      (∀ id, (l.dropWhile (seen items)).head? = some id → seen items id = false) := by
  refine ⟨(List.takeWhile_append_dropWhile _ l).symm, ?_, ?_⟩
  · intro id hid
    exact List.mem_takeWhile_imp hid
  · intro id hid
    have := List.head?_dropWhile_not (seen items) l
    rw [hid] at this
    simpa using this

/-- A `fetch` without truncation on a body that decodes to the array `l`. -/
theorem fetch_array_noLimit (spare : Nat → Nat) (p : HNPoller) (l : List Int)
    (h : p.testLimit ≤ 0) :
    p.fetch spare (.array l) = .ok ⟨none, (l.dropWhile (seen p.items)).enum, p⟩ := by
  obtain ⟨ids, h1, h2⟩ := unmarshal_elems spare l
  have hlim : ¬ p.testLimit > 0 := by omega
  simp only [HNPoller.fetch, h1, hlim, if_false]
  rw [dedupDispatch_eq, h2]

/-- A `fetch` with a truncation that is in range, on a body that decodes to
the array `l`. -/
theorem fetch_array_limit (spare : Nat → Nat) (p : HNPoller) (l : List Int)
    (h0 : 0 < p.testLimit) (hn : p.testLimit ≤ l.length) :
    p.fetch spare (.array l) =
      .ok ⟨none, ((l.take p.testLimit.toNat).dropWhile (seen p.items)).enum, p⟩ := by
  obtain ⟨ids, t, h1, h2, h3⟩ := sliceTo_unmarshal spare l p.testLimit h0 hn
  have hlim : p.testLimit > 0 := h0
  simp only [HNPoller.fetch, h1, hlim, if_true, h2]
  rw [dedupDispatch_eq, h3]

/-- Under the ordering assumption of the heuristic, the part of a listing from
its first unseen identifier on is the listing without the seen identifiers. -/
theorem dropWhile_eq_filter (items : Store) :
    ∀ l : List Int,
      (∀ (i j : Nat) (a b : Int), l[i]? = some a → l[j]? = some b →
        seen items a = true → seen items b = false → i < j) →
      l.dropWhile (seen items) = l.filter (fun id => !seen items id) := by
  intro l
  induction l with
  | nil => intro _; rfl
  | cons x xs ih =>
    intro h
    by_cases hx : seen items x = true
    · have hxs : ∀ (i j : Nat) (a b : Int), xs[i]? = some a → xs[j]? = some b →
          seen items a = true → seen items b = false → i < j := by
        intro i j a b hi hj ha hb
        have := h (i + 1) (j + 1) a b (by simpa using hi) (by simpa using hj) ha hb
        omega
      simp [List.dropWhile, List.filter, hx, ih hxs]
    · have hall : ∀ b ∈ xs, seen items b = false := by
        intro b hb
        obtain ⟨j, hj⟩ := List.getElem?_of_mem hb
        by_contra hne
        have hbt : seen items b = true := by simpa using hne
        have := h (j + 1) 0 b x (by simpa using hj) (by simp) hbt (by simpa using hx)
        omega
      have hfil : xs.filter (fun id => !seen items id) = xs := by
        rw [List.filter_eq_self]
        intro b hb
        simp [hall b hb]
      simp [List.dropWhile, List.filter, hx, hfil]

/-- A call of `fetch` that returns nil has run the part after the truncation
on the decoded listing, cut to `testLimit` when the limit is positive. -/
theorem fetch_nil_is_dedupDispatch (spare : Nat → Nat) (p : HNPoller) (body : Body)
    (r : FetchResult) (h : p.fetch spare body = .ok r) (herr : r.err = none) :
    ∃ decoded listing, jsonUnmarshal spare body = some decoded ∧
      (if p.testLimit > 0 then decoded.sliceTo p.testLimit else some decoded) = some listing ∧
      p.dedupDispatch listing = .ok r := by
  unfold HNPoller.fetch at h
  split at h
  · cases h
    cases herr
  · rename_i decoded hdec
    by_cases hlim : p.testLimit > 0
    · rw [if_pos hlim] at h
      split at h
      · cases h
      · rename_i listing hst
        exact ⟨decoded, listing, hdec, by rw [if_pos hlim]; exact hst, h⟩
    · rw [if_neg hlim] at h
      exact ⟨decoded, decoded, hdec, by rw [if_neg hlim], h⟩

/-! ## Claims on de-duplication and truncation -/

/-- C1: for every post-truncation listing `ids` and every poller, the part of
`fetch` after the truncation returns nil and the identifiers it dispatches are
the listing from its first identifier without a store entry on: the listing is
a prefix `known` of identifiers that all have an entry, followed by the
dispatched sequence, whose first identifier has none; the dispatched sequence
is empty when every listed identifier has an entry; and a dispatched identifier
that has an entry stands after a dispatched identifier that has none.  Every
call of `fetch` that returns nil has run this part on its post-truncation
listing.  With the listing `[1,2,3]` and entries for 1 and 2 exactly `[3]` is
dispatched. -/
theorem C1_dispatch_from_first_unseen (p : HNPoller) (ids : Slice) :
    (∃ r known, p.dedupDispatch ids = .ok r ∧ r.err = none ∧
      r.dispatched = ids.elems.dropWhile (seen p.items) ∧
      ids.elems = known ++ r.dispatched ∧
      (∀ id ∈ known, seen p.items id = true) ∧
      (∀ id, r.dispatched.head? = some id → seen p.items id = false) ∧
      ((∀ id ∈ ids.elems, seen p.items id = true) → r.dispatched = []) ∧
      (∀ id ∈ r.dispatched, seen p.items id = true →
        ∃ first rest, r.dispatched = first :: rest ∧
          seen p.items first = false ∧ id ∈ rest)) ∧
    (∀ (spare : Nat → Nat) (body : Body) (r : FetchResult),
      p.fetch spare body = .ok r → r.err = none →
        ∃ decoded listing, jsonUnmarshal spare body = some decoded ∧
          (if p.testLimit > 0 then decoded.sliceTo p.testLimit else some decoded) =
            some listing ∧
          r.dispatched = listing.elems.dropWhile (seen p.items)) ∧
    (∀ spare : Nat → Nat,
      ((HNPoller.mk ∅ hnPollInterval 0).itemListener
          [scenarioItem 1, scenarioItem 2]).fetch spare (.array [1, 2, 3]) =
        .ok ⟨none, [(0, 3)],
          (HNPoller.mk ∅ hnPollInterval 0).itemListener
            [scenarioItem 1, scenarioItem 2]⟩) := by
  refine ⟨?_, ?_, ?_⟩
  · obtain ⟨hsplit, hknown, hhead⟩ := dropWhile_split p.items ids.elems
    have hd := dispatched_enum (ids.elems.dropWhile (seen p.items)) p
    refine ⟨_, ids.elems.takeWhile (seen p.items), dedupDispatch_eq p ids, rfl, hd, ?_,
      hknown, ?_, ?_, ?_⟩
    · rw [hd]; exact hsplit
    · rw [hd]; exact hhead
    · intro hall
      rw [hd, List.dropWhile_eq_nil_iff]
      exact hall
    · rw [hd]
      intro id hid hseen
      cases hdw : ids.elems.dropWhile (seen p.items) with
      | nil => rw [hdw] at hid; cases hid
      | cons first rest =>
        have hf : seen p.items first = false := hhead first (by rw [hdw]; rfl)
        refine ⟨first, rest, rfl, hf, ?_⟩
        rw [hdw] at hid
        rcases List.mem_cons.mp hid with h | h
        · rw [h, hf] at hseen; cases hseen
        · exact h
  · intro spare body r h herr
    obtain ⟨decoded, listing, h1, h2, h3⟩ := fetch_nil_is_dedupDispatch spare p body r h herr
    refine ⟨decoded, listing, h1, h2, ?_⟩
    rw [dedupDispatch_eq] at h3
    cases h3
    exact dispatched_enum _ p
  · intro spare
    rw [fetch_array_noLimit spare _ _ (by rfl)]
    simp [HNPoller.itemListener, HNPoller.write, scenarioItem, seen,
      Finmap.lookup_insert_of_ne]

/-- C9: when in a listing every identifier with a store entry stands before
every identifier without one, the identifiers dispatched by the part of
`fetch` after the truncation are the order-preserving set difference of the
listing minus the store keys: every listed identifier without an entry is
dispatched and no identifier with an entry is. -/
theorem C9_suffix_listing_is_set_difference (p : HNPoller) (ids : Slice)
    (h : ∀ (i j : Nat) (a b : Int), ids.elems[i]? = some a → ids.elems[j]? = some b →
      seen p.items a = true → seen p.items b = false → i < j) :
    ∃ r, p.dedupDispatch ids = .ok r ∧
      r.dispatched = setDifference ids.elems p.items ∧
      (∀ id, id ∈ r.dispatched ↔ id ∈ ids.elems ∧ seen p.items id = false) := by
  have hd := dispatched_enum (ids.elems.dropWhile (seen p.items)) p
  have heq := dropWhile_eq_filter p.items ids.elems h
  refine ⟨_, dedupDispatch_eq p ids, ?_, ?_⟩
  · rw [hd, heq]; rfl
  · intro id
    rw [hd, heq]
    simp [List.mem_filter]

/-- C9 at the listing `[1,2,3]` with entries for 1 and 2. -/
theorem C9_suffix_listing_is_set_difference_witness :
    ∃ r, ((HNPoller.mk ∅ hnPollInterval 0).itemListener
        [scenarioItem 1, scenarioItem 2]).dedupDispatch
          ⟨[1, 2, 3], 3, by decide⟩ = .ok r ∧
      r.dispatched = setDifference (Slice.mk [1, 2, 3] 3 (by decide)).elems
        ((HNPoller.mk ∅ hnPollInterval 0).itemListener
          [scenarioItem 1, scenarioItem 2]).items ∧
      (∀ id, id ∈ r.dispatched ↔ id ∈ (Slice.mk [1, 2, 3] 3 (by decide)).elems ∧
        seen ((HNPoller.mk ∅ hnPollInterval 0).itemListener
          [scenarioItem 1, scenarioItem 2]).items id = false) :=
  C9_suffix_listing_is_set_difference _ _ (by
    intro i j a b hi hj ha hb
    have hseen : ∀ k : Int, seen ((HNPoller.mk ∅ hnPollInterval 0).itemListener
        [scenarioItem 1, scenarioItem 2]).items k = (decide (k = 2) || decide (k = 1)) := by
      intro k
      by_cases h2 : k = 2
      · subst h2
        simp [HNPoller.itemListener, HNPoller.write, scenarioItem, seen]
      · by_cases h1 : k = 1
        · subst h1
          simp [HNPoller.itemListener, HNPoller.write, scenarioItem, seen,
            Finmap.lookup_insert_of_ne]
        · simp [HNPoller.itemListener, HNPoller.write, scenarioItem, seen,
            Finmap.lookup_insert_of_ne, h1, h2]
    rw [hseen] at ha hb
    simp only [Slice.elems, List.take] at hi hj
    rcases i with _ | _ | _ | i <;> rcases j with _ | _ | _ | j <;>
      simp at hi hj <;> (try subst hi) <;> (try subst hj) <;> simp at ha hb ⊢)

/-- C3: with a limit `testLimit > 0` and a listing of at least `testLimit`
identifiers, `fetch` returns nil and dispatches a final part of the first
`testLimit` listed identifiers, after a prefix `known` of identifiers that all
have a store entry: at most `testLimit` goroutines, exactly `testLimit` when
the first listed identifier has no entry, and fewer only when `known` is not
empty.  With limit 0 the whole listing is scanned, without truncation. -/
theorem C3_truncation_bounds_dispatch (spare : Nat → Nat) (p : HNPoller) (l : List Int)
    (hpos : 0 < p.testLimit) (hlen : p.testLimit ≤ l.length) :
    ∃ r known, p.fetch spare (.array l) = .ok r ∧ r.err = none ∧
      l.take p.testLimit.toNat = known ++ r.dispatched ∧
      (∀ id ∈ known, seen p.items id = true) ∧
      r.spawned.length = r.dispatched.length ∧
      (r.dispatched.length : Int) ≤ p.testLimit ∧
      (∀ first, l.head? = some first → seen p.items first = false →
        r.dispatched = l.take p.testLimit.toNat ∧
          (r.dispatched.length : Int) = p.testLimit) ∧
      ((r.dispatched.length : Int) < p.testLimit → known ≠ []) ∧
      (∀ q : HNPoller, q.testLimit = 0 → ∀ l' : List Int,
        q.fetch spare (.array l') =
          .ok ⟨none, (l'.dropWhile (seen q.items)).enum, q⟩) := by
  have hnat : p.testLimit.toNat ≤ l.length := by omega
  have htl : (l.take p.testLimit.toNat).length = p.testLimit.toNat := by
    rw [List.length_take]; omega
  obtain ⟨hsplit, hknown, _⟩ := dropWhile_split p.items (l.take p.testLimit.toNat)
  have hd := dispatched_enum ((l.take p.testLimit.toNat).dropWhile (seen p.items)) p
  have hlen2 := congrArg List.length hsplit
  rw [List.length_append, htl] at hlen2
  refine ⟨_, (l.take p.testLimit.toNat).takeWhile (seen p.items),
    fetch_array_limit spare p l hpos hlen, rfl, ?_, hknown, ?_, ?_, ?_, ?_, ?_⟩
  · rw [hd]; exact hsplit
  · simp [FetchResult.dispatched]
  · rw [hd]; omega
  · intro first hfirst hunseen
    have hdw : (l.take p.testLimit.toNat).dropWhile (seen p.items) =
        l.take p.testLimit.toNat := by
      cases l with
      | nil => simp at hfirst
      | cons x xs =>
        simp only [List.head?_cons, Option.some.injEq] at hfirst
        subst hfirst
        obtain ⟨n, hn⟩ : ∃ n, p.testLimit.toNat = n + 1 := ⟨p.testLimit.toNat - 1, by omega⟩
        rw [hn]
        simp [List.take, List.dropWhile, hunseen]
    rw [hd, hdw]
    exact ⟨rfl, by rw [htl]; omega⟩
  · rw [hd]
    intro hlt hnil
    rw [hnil] at hlen2
    simp only [List.length_nil] at hlen2
    omega
  · intro q hq l'
    exact fetch_array_noLimit spare q l' (by omega)

/-- C3 at a listing of 50 identifiers and the limit 20 of `NewHNPoller`, whose
store is empty: exactly 20 goroutines, for the first 20 listed identifiers. -/
theorem C3_truncation_bounds_dispatch_witness :
    ∃ r, NewHNPoller.fetch (fun _ => 0) (.array (listingUpTo 50)) = .ok r ∧
      r.spawned.length = 20 ∧ r.dispatched = listingUpTo 20 := by
  obtain ⟨r, known, h1, _, _, _, h5, _, h7, _⟩ :=
    C3_truncation_bounds_dispatch (fun _ => 0) NewHNPoller (listingUpTo 50)
      (by decide) (by decide)
  obtain ⟨h8, h9⟩ := h7 1 (by decide) (by simp [seen, NewHNPoller])
  refine ⟨r, h1, ?_, ?_⟩
  · rw [h5]
    have : (r.dispatched.length : Int) = 20 := h9
    omega
  · rw [h8]
    decide

/-! ## The ingest consumer -/

theorem itemListener_fields (l : List hnItem) :
    ∀ p : HNPoller, (p.itemListener l).pollInterval = p.pollInterval ∧
      (p.itemListener l).testLimit = p.testLimit := by
  induction l with
  | nil => intro p; exact ⟨rfl, rfl⟩
  | cons x xs ih => intro p; exact ih (p.write x)

/-- Writes leave the entries under other identifiers as they were. -/
theorem lookup_itemListener_of_not_mem (l : List hnItem) :
    ∀ (p : HNPoller) (k : Int), k ∉ l.map hnItem.Id →
      (p.itemListener l).items.lookup k = p.items.lookup k := by
  induction l with
  | nil => intro p k _; rfl
  | cons x xs ih =>
    intro p k hk
    simp only [List.map_cons, List.mem_cons, not_or] at hk
    show ((p.write x).itemListener xs).items.lookup k = _
    rw [ih (p.write x) k hk.2]
    exact Finmap.lookup_insert_of_ne p.items hk.1

/-- After writes with pairwise distinct identifiers every written record is
the entry under its identifier. -/
theorem lookup_itemListener_of_mem (l : List hnItem) :
    ∀ (p : HNPoller), (l.map hnItem.Id).Nodup → ∀ it ∈ l,
      (p.itemListener l).items.lookup it.Id = some it := by
  induction l with
  | nil => intro p _ it hit; cases hit
  | cons x xs ih =>
    intro p hnd it hit
    simp only [List.map_cons, List.nodup_cons] at hnd
    show ((p.write x).itemListener xs).items.lookup it.Id = _
    rcases List.mem_cons.mp hit with h | h
    · subst h
      rw [lookup_itemListener_of_not_mem xs (p.write it) it.Id hnd.1]
      exact Finmap.lookup_insert p.items
    · exact ih (p.write x) hnd.2 it h

/-- The poller after writes with pairwise distinct identifiers does not depend
on the order of the writes. -/
theorem itemListener_perm (p : HNPoller) (l₁ l₂ : List hnItem)
    (hnd : (l₂.map hnItem.Id).Nodup) (hperm : l₁.Perm l₂) :
    p.itemListener l₁ = p.itemListener l₂ := by
  have hnd₁ : (l₁.map hnItem.Id).Nodup := (hperm.map hnItem.Id).nodup_iff.mpr hnd
  have hitems : (p.itemListener l₁).items = (p.itemListener l₂).items := by
    apply Finmap.ext_lookup
    intro k
    by_cases hk : k ∈ l₂.map hnItem.Id
    · obtain ⟨it, hit, rfl⟩ := List.mem_map.mp hk
      rw [lookup_itemListener_of_mem l₂ p hnd it hit,
        lookup_itemListener_of_mem l₁ p hnd₁ it (hperm.mem_iff.mpr hit)]
    · have hk₁ : k ∉ l₁.map hnItem.Id := fun h => hk ((hperm.map hnItem.Id).mem_iff.mp h)
      rw [lookup_itemListener_of_not_mem l₂ p k hk, lookup_itemListener_of_not_mem l₁ p k hk₁]
  have h₁ := itemListener_fields l₁ p
  have h₂ := itemListener_fields l₂ p
  cases hp₁ : p.itemListener l₁ with
  | mk i₁ a₁ b₁ =>
    cases hp₂ : p.itemListener l₂ with
    | mk i₂ a₂ b₂ =>
      rw [hp₁] at h₁ hitems
      rw [hp₂] at h₂ hitems
      simp only at h₁ h₂ hitems
      rw [hitems, h₁.1, h₁.2, h₂.1, h₂.2]

/-! ## Claims on the store -/

/-- C2: for every poller and every item, after the write step of the ingest
consumer, `items[item.Id] = item`, the map returned by `Items` has `item` as
the entry under `item.Id`. -/
theorem C2_write_then_Items (p : HNPoller) (item : hnItem) :
    (p.write item).Items.lookup item.Id = some item ∧
      (p.itemListener [item]).Items.lookup item.Id = some item :=
  ⟨Finmap.lookup_insert p.items, Finmap.lookup_insert p.items⟩

/-- C6: for every poller and every list `items` of records with pairwise
distinct identifiers, in whatever order `order` the ingest consumer receives
them, after all the writes the map of `Items` has each record as the entry
under its identifier, every key is an old key or one of the written
identifiers, the entries under the other identifiers are as before, and the
resulting poller is the same as for any other order. -/
theorem C6_distinct_writes_commute (p : HNPoller) (items order : List hnItem)
    (hnd : (items.map hnItem.Id).Nodup) (hperm : order.Perm items) :
    (∀ it ∈ items, (p.itemListener order).Items.lookup it.Id = some it) ∧
      (∀ k, k ∉ items.map hnItem.Id →
        (p.itemListener order).Items.lookup k = p.Items.lookup k) ∧
      (∀ k, k ∈ p.Items → k ∈ (p.itemListener order).Items) ∧
      (∀ order' : List hnItem, order'.Perm items →
        p.itemListener order' = p.itemListener order) := by
  have hnd' : (order.map hnItem.Id).Nodup := (hperm.map hnItem.Id).nodup_iff.mpr hnd
  have hnot : ∀ k, k ∉ items.map hnItem.Id →
      (p.itemListener order).Items.lookup k = p.Items.lookup k := by
    intro k hk
    exact lookup_itemListener_of_not_mem order p k
      (fun h => hk ((hperm.map hnItem.Id).mem_iff.mp h))
  have hmem : ∀ it ∈ items, (p.itemListener order).Items.lookup it.Id = some it :=
    fun it hit => lookup_itemListener_of_mem order p hnd' it (hperm.mem_iff.mpr hit)
  refine ⟨hmem, hnot, ?_, ?_⟩
  · intro k hk
    by_cases hin : k ∈ items.map hnItem.Id
    · obtain ⟨it, hit, rfl⟩ := List.mem_map.mp hin
      exact Finmap.mem_iff.mpr ⟨it, hmem it hit⟩
    · obtain ⟨b, hb⟩ := Finmap.mem_iff.mp hk
      exact Finmap.mem_iff.mpr ⟨b, by rw [hnot k hin]; exact hb⟩
  · intro order' hperm'
    rw [itemListener_perm p order' items hnd hperm', itemListener_perm p order items hnd hperm]

/-- C6 at the records of identifiers 1, 2, 3 received in the order 3, 1, 2 by
a poller that has an entry under 7. -/
theorem C6_distinct_writes_commute_witness :
    ((NewHNPoller.write (scenarioItem 7)).itemListener
        [scenarioItem 3, scenarioItem 1, scenarioItem 2]).Items.lookup 2 =
          some (scenarioItem 2) ∧
      ((NewHNPoller.write (scenarioItem 7)).itemListener
        [scenarioItem 3, scenarioItem 1, scenarioItem 2]).Items.lookup 7 =
          some (scenarioItem 7) ∧
      (NewHNPoller.write (scenarioItem 7)).itemListener
        [scenarioItem 2, scenarioItem 3, scenarioItem 1] =
      (NewHNPoller.write (scenarioItem 7)).itemListener
        [scenarioItem 3, scenarioItem 1, scenarioItem 2] := by
  obtain ⟨h1, h2, _, h4⟩ := C6_distinct_writes_commute (NewHNPoller.write (scenarioItem 7))
    [scenarioItem 1, scenarioItem 2, scenarioItem 3]
    [scenarioItem 3, scenarioItem 1, scenarioItem 2] (by decide) (by decide)
  refine ⟨h1 (scenarioItem 2) (by decide), ?_,
    h4 [scenarioItem 2, scenarioItem 3, scenarioItem 1] (by decide)⟩
  rw [h2 7 (by decide)]
  exact Finmap.lookup_insert NewHNPoller.items

/-! ## Outcomes of a polling cycle -/

/-- A body that does not decode makes `fetch` return its error, with no
goroutine started and the poller as it was. -/
theorem fetch_undecodable (spare : Nat → Nat) (p : HNPoller) (body : Body)
    (h : jsonUnmarshal spare body = none) :
    p.fetch spare body = .ok ⟨some "hnpoller: error unmarshalling json", [], p⟩ := by
  simp only [HNPoller.fetch, h]

/-- The empty body and a malformed body do not decode, whatever the library's
growth policy. -/
theorem fetch_empty_or_malformed (spare : Nat → Nat) (p : HNPoller) :
    p.fetch spare .empty = .ok ⟨some "hnpoller: error unmarshalling json", [], p⟩ ∧
      p.fetch spare .malformed = .ok ⟨some "hnpoller: error unmarshalling json", [], p⟩ :=
  ⟨rfl, rfl⟩

/-- A call of `fetch` panics exactly when the body decodes, the limit is
positive and the decoded slice has a capacity below the limit. -/
theorem fetch_panic_iff (spare : Nat → Nat) (p : HNPoller) (body : Body) :
    p.fetch spare body = .panic ↔
      ∃ ids, jsonUnmarshal spare body = some ids ∧ 0 < p.testLimit ∧
        (ids.cap : Int) < p.testLimit := by
  cases hdec : jsonUnmarshal spare body with
  | none =>
    constructor
    · intro h
      simp only [HNPoller.fetch, hdec] at h
      cases h
    · rintro ⟨ids, h, _⟩
      cases h
  | some ids =>
    by_cases hlim : p.testLimit > 0
    · by_cases hcap : 0 ≤ p.testLimit ∧ p.testLimit.toNat ≤ ids.backing.length
      · have hst : ids.sliceTo p.testLimit = some ⟨ids.backing, p.testLimit.toNat, hcap.2⟩ :=
          dif_pos hcap
        simp only [HNPoller.fetch, hdec, hlim, if_true, hst, dedupDispatch_eq]
        constructor
        · intro h
          cases h
        · rintro ⟨ids', h, _, hc⟩
          cases h
          exfalso
          have := hcap.2
          simp only [Slice.cap] at hc
          omega
      · have hst : ids.sliceTo p.testLimit = none := dif_neg hcap
        simp only [HNPoller.fetch, hdec, hlim, if_true, hst]
        refine ⟨fun _ => ⟨ids, rfl, trivial, ?_⟩, fun _ => trivial⟩
        have h0 : 0 ≤ p.testLimit := by omega
        have : ¬ p.testLimit.toNat ≤ ids.backing.length := fun h => hcap ⟨h0, h⟩
        simp only [Slice.cap]
        omega
    · simp only [HNPoller.fetch, hdec, hlim, if_false, dedupDispatch_eq]
      constructor
      · intro h
        cases h
      · rintro ⟨_, _, h, _⟩
        exact h.elim

/-- A call of `fetch` that returns leaves the poller as it was. -/
theorem fetch_poller (spare : Nat → Nat) (p : HNPoller) (body : Body) (r : FetchResult)
    (h : p.fetch spare body = .ok r) : r.poller = p := by
  unfold HNPoller.fetch at h
  split at h
  · cases h; rfl
  · split at h
    · split at h
      · cases h
      · rw [dedupDispatch_eq] at h; cases h; rfl
    · rw [dedupDispatch_eq] at h; cases h; rfl

/-! ## Claims on the outcome of a polling cycle -/

/-- C4: on the listing body `[]`, an empty JSON array, one polling cycle of the
default poller does not return: the decoded slice has capacity 0, the
truncation `ids[:testLimit]` with `testLimit = 20` is out of range, and the
panic ends `fetch` and the loop of `poll`. -/
theorem C4_empty_array_panics (spare : Nat → Nat) :
    NewHNPoller.fetch spare (.array []) = .panic ∧
      NewHNPoller.pollIteration spare (.array []) = .panic :=
  ⟨rfl, rfl⟩

/-- C5: the listing body `null` decodes without error, to the nil slice, and
the polling cycle of the default poller does not return nil on it: the
truncation `ids[:testLimit]` panics. -/
theorem C5_null_decodes_and_panics (spare : Nat → Nat) :
    jsonUnmarshal spare .null = some Slice.nil ∧
      NewHNPoller.fetch spare .null = .panic :=
  ⟨rfl, rfl⟩

/-- A listing shorter than the limit of the default poller whose decoded slice
has a capacity below 20 makes the cycle panic as well. -/
theorem fetch_short_listing_panics (spare : Nat → Nat) (l : List Int)
    (h : l.length + spare l.length < 20) :
    NewHNPoller.fetch spare (.array l) = .panic := by
  rw [fetch_panic_iff]
  cases l with
  | nil => exact ⟨Slice.nil, rfl, by decide, by decide⟩
  | cons x xs =>
    refine ⟨_, rfl, by decide, ?_⟩
    simp only [Slice.cap, List.length_append, List.length_cons, List.length_replicate,
      NewHNPoller] at h ⊢
    omega

/-- C10: a polling cycle that returns leaves the poller, and so the store, as
it was, and run again on the same listing body it returns the same result,
with the same goroutines; the part of `fetch` after the truncation always
returns and has the same two properties.  With an empty store and no limit the
listing `[1,2,3]` is dispatched in full by a first cycle and again by a second
one, and by no cycle once the consumer has written the three records. -/
theorem C10_cycle_leaves_store (spare : Nat → Nat) (p : HNPoller) (body : Body) :
    (∀ r, p.fetch spare body = .ok r →
      r.poller = p ∧ r.poller.Items = p.Items ∧ r.poller.fetch spare body = .ok r) ∧
    (∀ ids : Slice, ∃ r, p.dedupDispatch ids = .ok r ∧ r.poller = p ∧
      r.poller.Items = p.Items ∧ r.poller.dedupDispatch ids = .ok r) ∧
    (∃ r, (HNPoller.mk ∅ hnPollInterval 0).fetch spare (.array [1, 2, 3]) = .ok r ∧
      r.dispatched = [1, 2, 3] ∧
      r.poller.fetch spare (.array [1, 2, 3]) = .ok r ∧
      ∃ r', (r.poller.itemListener
          [scenarioItem 1, scenarioItem 2, scenarioItem 3]).fetch spare (.array [1, 2, 3]) =
            .ok r' ∧ r'.dispatched = []) := by
  refine ⟨?_, ?_, ?_⟩
  · intro r h
    have hp := fetch_poller spare p body r h
    refine ⟨hp, by rw [hp], by rw [hp]; exact h⟩
  · intro ids
    exact ⟨_, dedupDispatch_eq p ids, rfl, rfl, dedupDispatch_eq p ids⟩
  · have h1 : (HNPoller.mk ∅ hnPollInterval 0).fetch spare (.array [1, 2, 3]) =
        .ok ⟨none, [(0, 1), (1, 2), (2, 3)], HNPoller.mk ∅ hnPollInterval 0⟩ := by
      rw [fetch_array_noLimit spare _ _ (by rfl)]
      simp [seen, List.enum, List.enumFrom]
    refine ⟨_, h1, rfl, h1, _, fetch_array_noLimit spare _ _
      (by rw [(itemListener_fields _ _).2]), ?_⟩
    rw [dispatched_enum]
    simp [HNPoller.itemListener, HNPoller.write, scenarioItem, seen,
      Finmap.lookup_insert_of_ne]

/-! ## Claims on the fetch goroutines -/

/-- The records sent by the goroutines of `spawned`: one per goroutine, the
decoded record of its identifier. -/
theorem sent_eq (net : Int → Reply) (spawned : List (Nat × Int)) :
    sent net spawned = (spawned.map Prod.snd).map (fun id => (net id).resp) := by
  induction spawned with
  | nil => rfl
  | cons a rest ih =>
    simp only [sent, List.flatMap_cons, goroutine, List.map_cons] at ih ⊢
    rw [ih]
    rfl

/-- C8, as stated, fails for the requested identifier 0: the request fails,
the goroutine sends the zero record, whose `Id` is 0, and the write of the
consumer gives the store, which had no entry under 0, the zero record as the
entry under 0. -/
theorem C8_zero_record_lands_under_zero :
    goroutine (fun _ => Reply.requestFailed) 0 0 = [hnItem.zero] ∧
      NewHNPoller.Items.lookup 0 = none ∧
      (NewHNPoller.itemListener
        (goroutine (fun _ => Reply.requestFailed) 0 0)).Items.lookup 0 = some hnItem.zero :=
  ⟨rfl, rfl, Finmap.lookup_insert NewHNPoller.items⟩

/-- C8, amended: for every requested identifier other than 0 whose request
fails or whose body fails to decode with `resp` left at its zero value, the
goroutine sends exactly one record, the zero record; after the write of the
consumer the entry under the requested identifier is as before, so the
identifier has no entry when it had none, and the zero record is the entry
under 0. -/
theorem C8_failed_fetch_writes_zero_record (p : HNPoller) (net : Int → Reply)
    (inst : Nat) (id : Int)
    (hfail : net id = .requestFailed ∨ net id = .undecodable hnItem.zero)
    (hid : id ≠ 0) :
    goroutine net inst id = [hnItem.zero] ∧
      (goroutine net inst id).length = 1 ∧
      (p.itemListener (goroutine net inst id)).Items.lookup id = p.Items.lookup id ∧
      (id ∉ p.Items → id ∉ (p.itemListener (goroutine net inst id)).Items) ∧
      (p.itemListener (goroutine net inst id)).Items.lookup 0 = some hnItem.zero := by
  have hresp : (net id).resp = hnItem.zero := by
    rcases hfail with h | h <;> rw [h] <;> rfl
  have hg : goroutine net inst id = [hnItem.zero] := by
    simp only [goroutine, hresp]
  have hlook : (p.itemListener [hnItem.zero]).Items.lookup id = p.Items.lookup id :=
    Finmap.lookup_insert_of_ne p.items hid
  rw [hg]
  refine ⟨rfl, rfl, hlook, ?_, Finmap.lookup_insert p.items⟩
  intro hnot hin
  obtain ⟨b, hb⟩ := Finmap.mem_iff.mp hin
  rw [hlook] at hb
  exact hnot (Finmap.mem_iff.mpr ⟨b, hb⟩)

/-- C8, amended, at the requested identifier 5 and the default poller. -/
theorem C8_failed_fetch_writes_zero_record_witness :
    goroutine (fun _ => Reply.requestFailed) 0 5 = [hnItem.zero] ∧
      (goroutine (fun _ => Reply.requestFailed) 0 5).length = 1 ∧
      (NewHNPoller.itemListener
        (goroutine (fun _ => Reply.requestFailed) 0 5)).Items.lookup 5 =
          NewHNPoller.Items.lookup 5 ∧
      (5 ∉ NewHNPoller.Items →
        5 ∉ (NewHNPoller.itemListener (goroutine (fun _ => Reply.requestFailed) 0 5)).Items) ∧
      (NewHNPoller.itemListener
        (goroutine (fun _ => Reply.requestFailed) 0 5)).Items.lookup 0 = some hnItem.zero :=
  C8_failed_fetch_writes_zero_record NewHNPoller (fun _ => Reply.requestFailed) 0 5
    (Or.inl rfl) (by decide)

/-- C7, as stated, fails for the default poller on the listing `[1, ..., 21]`
of pairwise distinct identifiers: the cycle starts 20 goroutines, for the
identifiers 1 to 20, and none for 21.  On the listing `[1,2,3]` of the
scenario the cycle of the default poller panics when the decoded slice has a
capacity below 20. -/
theorem C7_default_poller_dispatches_twenty :
    (listingUpTo 21).Nodup ∧ (listingUpTo 21).length = 21 ∧
      (∀ spare : Nat → Nat, NewHNPoller.fetch spare (.array (listingUpTo 21)) =
        .ok ⟨none, (listingUpTo 20).enum, NewHNPoller⟩) ∧
      (listingUpTo 20).enum.length = 20 ∧ (21 : Int) ∉ listingUpTo 20 ∧
      (∀ spare : Nat → Nat, 3 + spare 3 < 20 →
        NewHNPoller.fetch spare (.array [1, 2, 3]) = .panic) := by
  refine ⟨by decide, by decide, ?_, by decide, by decide, ?_⟩
  · intro spare
    rw [fetch_array_limit spare NewHNPoller (listingUpTo 21) (by decide) (by decide)]
    have : ((listingUpTo 21).take NewHNPoller.testLimit.toNat).dropWhile
        (seen NewHNPoller.items) = listingUpTo 20 := by
      have hs : seen NewHNPoller.items = fun _ => false := by
        funext k
        simp [seen, NewHNPoller]
      rw [hs]
      decide
    rw [this]
  · intro spare h
    exact fetch_short_listing_panics spare [1, 2, 3] h

/-- The identifiers of the records decoded for `d`, when each record carries
the identifier it was requested for. -/
theorem map_Id_resp (net : Int → Reply) (d : List Int)
    (h : ∀ id ∈ d, (net id).resp.Id = id) :
    (d.map (fun id => (net id).resp)).map hnItem.Id = d := by
  induction d with
  | nil => rfl
  | cons x xs ih =>
    simp only [List.map_cons, List.cons.injEq]
    exact ⟨h x (List.mem_cons_self x xs), ih (fun id hid => h id (List.mem_cons_of_mem x hid))⟩

/-- With an empty store no identifier is seen. -/
theorem dropWhile_seen_empty (items : Store) (h : items = ∅) (l : List Int) :
    l.dropWhile (seen items) = l := by
  cases l with
  | nil => rfl
  | cons x xs =>
    have : seen items x = false := by
      subst h
      rfl
    simp [List.dropWhile, this]

/-- C7, amended: for a poller with an empty store and a limit that is not
above the length of the listing (the default poller has limit 20), a listing
of pairwise distinct identifiers, and item-detail replies that decode to a
record carrying the requested identifier, one polling cycle returns nil and
starts one goroutine per identifier among the first `testLimit` listed ones
(per listed identifier when the limit is 0 or below); and in whatever order
the consumer receives the records the goroutines send, once it has written
them the map of `Items` has exactly one entry per dispatched identifier,
holding the record decoded for it. -/
theorem C7_cycle_then_drain (spare : Nat → Nat) (p : HNPoller) (l : List Int)
    (net : Int → Reply)
    (hempty : p.items = ∅) (hnd : l.Nodup) (hlim : p.testLimit ≤ l.length)
    (hnet : ∀ id ∈ l, ∃ it, net id = .object it ∧ it.Id = id) :
    ∃ r, p.fetch spare (.array l) = .ok r ∧ r.err = none ∧
      r.dispatched = (if 0 < p.testLimit then l.take p.testLimit.toNat else l) ∧
      r.spawned.length = r.dispatched.length ∧
      ∀ received : List hnItem, received.Perm (sent net r.spawned) →
        (∀ id ∈ r.dispatched, ∃ it, net id = .object it ∧
          (r.poller.itemListener received).Items.lookup id = some it) ∧
        (r.poller.itemListener received).Items.keys = r.dispatched.toFinset ∧
        (r.poller.itemListener received).Items.keys.card = r.dispatched.length := by
  -- the dispatched identifiers
  obtain ⟨d, hfetch, hdeq, hsub⟩ : ∃ d : List Int,
      p.fetch spare (.array l) = .ok ⟨none, d.enum, p⟩ ∧
      d = (if 0 < p.testLimit then l.take p.testLimit.toNat else l) ∧ d.Sublist l := by
    by_cases h0 : 0 < p.testLimit
    · refine ⟨l.take p.testLimit.toNat, ?_, by rw [if_pos h0], List.take_sublist _ _⟩
      rw [fetch_array_limit spare p l h0 hlim, dropWhile_seen_empty p.items hempty]
    · refine ⟨l, ?_, by rw [if_neg h0], List.Sublist.refl l⟩
      rw [fetch_array_noLimit spare p l (by omega), dropWhile_seen_empty p.items hempty]
  have hd := dispatched_enum d p
  have hdnd : d.Nodup := hnd.sublist hsub
  have hresp : ∀ id ∈ d, (net id).resp.Id = id := by
    intro id hid
    obtain ⟨it, h1, h2⟩ := hnet id (hsub.subset hid)
    rw [h1]
    exact h2
  have hids := map_Id_resp net d hresp
  refine ⟨_, hfetch, rfl, by rw [hd]; exact hdeq, by simp [FetchResult.dispatched], ?_⟩
  intro received hperm
  rw [hd]
  have hsent : sent net d.enum = d.map (fun id => (net id).resp) := by
    rw [sent_eq, List.enum_map_snd]
  rw [show (FetchResult.mk none d.enum p).spawned = d.enum from rfl, hsent] at hperm
  have hrecnd : ((d.map (fun id => (net id).resp)).map hnItem.Id).Nodup := by
    rw [hids]; exact hdnd
  have hpoller : (FetchResult.mk none d.enum p).poller.itemListener received =
      p.itemListener (d.map (fun id => (net id).resp)) :=
    itemListener_perm p received _ hrecnd hperm
  rw [hpoller]
  have hin : ∀ id ∈ d, (p.itemListener (d.map (fun id => (net id).resp))).Items.lookup id =
      some (net id).resp := by
    intro id hid
    have := lookup_itemListener_of_mem (d.map (fun id => (net id).resp)) p hrecnd
      (net id).resp (List.mem_map.mpr ⟨id, hid, rfl⟩)
    rw [hresp id hid] at this
    exact this
  have hout : ∀ k, k ∉ d →
      (p.itemListener (d.map (fun id => (net id).resp))).Items.lookup k = none := by
    intro k hk
    have := lookup_itemListener_of_not_mem (d.map (fun id => (net id).resp)) p k
      (by rw [hids]; exact hk)
    rw [hempty] at this
    exact this
  have hkeys : (p.itemListener (d.map (fun id => (net id).resp))).Items.keys = d.toFinset := by
    ext k
    rw [Finmap.mem_keys, List.mem_toFinset, Finmap.mem_iff]
    constructor
    · rintro ⟨b, hb⟩
      by_contra hk
      have hnone := hout k hk
      rw [HNPoller.Items] at hb
      rw [HNPoller.Items, hb] at hnone
      cases hnone
    · intro hk
      exact ⟨_, hin k hk⟩
  refine ⟨?_, hkeys, ?_⟩
  · intro id hid
    obtain ⟨it, h1, _⟩ := hnet id (hsub.subset hid)
    refine ⟨it, h1, ?_⟩
    rw [hin id hid, h1]
    rfl
  · rw [hkeys, List.toFinset_card_of_nodup hdnd]

/-- C7, amended, at the end-to-end scenario: the listing `[1,2,3]`, a poller
with an empty store and no limit, replies with `id` N and `score` N * 10, the
records received in the order 3, 1, 2: three goroutines, and three entries,
with scores 10, 20 and 30. -/
theorem C7_cycle_then_drain_witness :
    ∃ r, (HNPoller.mk ∅ hnPollInterval 0).fetch (fun _ => 1) (.array [1, 2, 3]) = .ok r ∧
      r.spawned.length = 3 ∧
      (r.poller.itemListener [scenarioItem 3, scenarioItem 1, scenarioItem 2]).Items.keys.card
        = 3 ∧
      ((r.poller.itemListener [scenarioItem 3, scenarioItem 1, scenarioItem 2]).Items.lookup 1
        ).map hnItem.Score = some 10 ∧
      ((r.poller.itemListener [scenarioItem 3, scenarioItem 1, scenarioItem 2]).Items.lookup 2
        ).map hnItem.Score = some 20 ∧
      ((r.poller.itemListener [scenarioItem 3, scenarioItem 1, scenarioItem 2]).Items.lookup 3
        ).map hnItem.Score = some 30 := by
  obtain ⟨r, h1, _, h3, h4, h5⟩ := C7_cycle_then_drain (fun _ => 1)
    (HNPoller.mk ∅ hnPollInterval 0) [1, 2, 3] (fun id => Reply.object (scenarioItem id))
    rfl (by decide) (by decide) (fun id _ => ⟨scenarioItem id, rfl, rfl⟩)
  have h3' : r.dispatched = [1, 2, 3] := h3
  have hspawned : r.spawned = [(0, 1), (1, 2), (2, 3)] := by
    have h := fetch_array_noLimit (fun _ => 1) (HNPoller.mk ∅ hnPollInterval 0) [1, 2, 3]
      (by decide)
    rw [h1] at h
    cases h
    simp [seen, List.enum, List.enumFrom]
  obtain ⟨h6, _, h8⟩ := h5 [scenarioItem 3, scenarioItem 1, scenarioItem 2] (by
    rw [hspawned]
    decide)
  rw [h3'] at h6 h8
  refine ⟨r, h1, by rw [h4, h3']; rfl, h8, ?_, ?_, ?_⟩
  · obtain ⟨it, hit, hl⟩ := h6 1 (by decide)
    cases hit
    rw [hl]
    rfl
  · obtain ⟨it, hit, hl⟩ := h6 2 (by decide)
    cases hit
    rw [hl]
    rfl
  · obtain ⟨it, hit, hl⟩ := h6 3 (by decide)
    cases hit
    rw [hl]
    rfl

end HN
